import Mathlib

/-!
Verification of the rationalized-classifier training core
(`src/rationalize/models/rationalizer.py` and
`src/rationalize/models/classifier.py`) against its specification.

Real numbers of the source (PyTorch float32 tensors) are modelled as
exact rationals `ℚ`; tensors are lists (rows of a batch, positions of a
sequence).  Divisions whose IEEE result would be non-finite (NaN or
±Inf, i.e. a zero denominator) are modelled by `Option ℚ` with `none`
standing for the non-finite outcome.
-/

namespace Rationalize

/-- Arithmetic mean of a list of rationals, `np.mean` / `torch.mean`
on a one-dimensional tensor (0 on the empty list, which never occurs
in reachable states). -/
def listMean (l : List ℚ) : ℚ :=
  l.sum / l.length

/-- `collections.deque(maxlen=200).append`: append on the right, and
when the queue would exceed 200 entries drop from the left (oldest
first).  Source: `rationalizer.py` line 46 (`deque(maxlen=200)`)
and the appends at lines 47 and 183. -/
def dequePush (q : List ℚ) (x : ℚ) : List ℚ :=
  let q' := q ++ [x]
  if 200 < q'.length then q'.drop (q'.length - 200) else q'

/-- Reward history after `n` hard-rationale training steps whose
batch-mean rewards are `r 0, r 1, ...`: initialized with a single zero
entry at construction (`rationalizer.py` line 47), one `dequePush`
per step (line 183). -/
def historyAfter : Nat → (Nat → ℚ) → List ℚ
  | 0, _ => [(0 : ℚ)]
  | n + 1, r => dequePush (historyAfter n r) (r n)

/-- The λ-coefficients of `Rationalizer` relevant to the combined
reward (`rationalizer.py` lines 52-83; a disabled feature's λ is 0). -/
structure Config where
  lambda_anti : ℚ
  lambda_continuity : ℚ
  lambda_sparsity : ℚ
  lambda_s : ℚ
  lambda_d : ℚ

/-- One batch row of the tensors entering `_get_tagger_loss`
(`rationalizer.py` lines 145-160): the per-example scalar rewards and
losses, and this example's rows of `neg_log_probs` and of the mask `m`. -/
structure BatchSignals where
  reward_classifier : ℚ
  reward_anti_classifier : ℚ
  reward_s : ℚ
  reward_d : ℚ
  loss_continuity : ℚ
  loss_sparsity : ℚ
  neg_log_probs : List ℚ
  m : List ℚ
  deriving Inhabited

/-- Per-example combined reward, `rationalizer.py` lines 175-180. -/
def combinedReward (cfg : Config) (e : BatchSignals) : ℚ :=
  e.reward_classifier
    - e.reward_anti_classifier * cfg.lambda_anti
    - e.loss_continuity * cfg.lambda_continuity
    - e.loss_sparsity * cfg.lambda_sparsity
    + e.reward_s * cfg.lambda_s
    + e.reward_d * cfg.lambda_d

/-- Everything `_get_tagger_loss` computes: the returned scalar loss,
the mutated reward history, and the intermediate values
`history_rewards_mean` (the baseline, a local of the source) and
`advantages`. -/
structure TaggerLossResult where
  loss_tagger : ℚ
  history_rewards : List ℚ
  history_rewards_mean : ℚ
  advantages : List ℚ

/-- `Rationalizer._get_tagger_loss` (`rationalizer.py` lines 145-200):
line 169 reads the mean of the reward history, lines 175-180 build the
per-example combined rewards, line 183 appends the batch mean to the
history, line 187 subtracts the previously read mean, line 194
broadcasts the advantages over positions, line 198 sums
`neg_log_probs * advantages * m` over the whole batch. -/
def getTaggerLoss (cfg : Config) (history : List ℚ) (batch : List BatchSignals) :
    TaggerLossResult :=
  let history_rewards_mean := listMean history
  let rewards := batch.map (combinedReward cfg)
  let history' := dequePush history (listMean rewards)
  let advantages := rewards.map (fun r => r - history_rewards_mean)
  let loss_tagger :=
    ((batch.zip advantages).map (fun p =>
      ((p.1.neg_log_probs.zip p.1.m).map (fun q => q.1 * p.2 * q.2)).sum)).sum
  ⟨loss_tagger, history', history_rewards_mean, advantages⟩

/-- The large negative constant of the source
(`rationalizer.py` line 26, `classifier.py` line 30: `-1.0e6`). -/
def NEG_INF : ℚ := -1000000

/-- Maximum of a list of rationals (`torch.max(·, dim)[0]`), `none` on
the empty list. -/
def listMax : List ℚ → Option ℚ
  | [] => none
  | x :: xs =>
    match listMax xs with
    | none => some x
    | some y => some (max x y)

/-- One sequence position of one batch row at one hidden dimension in
hard-mode pooling: `p.1` is the encoder hidden value `hiddens[b][d][t]`,
`p.2.1` the mask `m[b][t]`, `p.2.2` the selection `z[b][t]`.  The biased
value is `hiddens + (1 - m * z) * NEG_INF` (`classifier.py` line 71). -/
def hiddenBias (p : ℚ × ℚ × ℚ) : ℚ :=
  p.1 + (1 - p.2.1 * p.2.2) * NEG_INF

/-- Hard-mode max pooling of `Classifier.forward` at one hidden
dimension of one batch row (`classifier.py` line 71):
`torch.max(hiddens + (1 - m * z).unsqueeze(1) * self.NEG_INF, dim=2)[0]`. -/
def maxPoolHidden (pts : List (ℚ × ℚ × ℚ)) : Option ℚ :=
  listMax (pts.map hiddenBias)

/-- The hidden values at the positions selected by `m * z = 1`, i.e.
the sequence that remains when excluded positions are truly absent. -/
def selectedHidden (pts : List (ℚ × ℚ × ℚ)) : List ℚ :=
  pts.filterMap (fun p => if p.2.1 * p.2.2 = 1 then some p.1 else none)

/-- `Rationalizer._get_guidance_reward` for one batch row
(`rationalizer.py` line 218): `torch.mean(z * ref, dim=1)`, the mean
over the full sequence dimension with no mask applied. -/
def guidanceReward (z ref : List ℚ) : ℚ :=
  (List.zipWith (fun a b => a * b) z ref).sum / z.length

/-- The domain-knowledge reward of a hard training step for one batch
row (`rationalizer.py` lines 340-342): `d = torch.abs(d)` then
`_get_guidance_reward(z, d)`. -/
def rewardD (z d : List ℚ) : ℚ :=
  guidanceReward z (d.map (fun v => |v|))

/-- Division returning `none` when the denominator is zero, modelling
the non-finite (NaN/Inf) result of the IEEE division of the source. -/
def qdiv (a b : ℚ) : Option ℚ :=
  if b = 0 then none else some (a / b)

/-- `|a - b|` on possibly non-finite values: any non-finite operand
poisons the result, as NaN/Inf does in the source. -/
def qabsSub : Option ℚ → Option ℚ → Option ℚ
  | some a, some b => some |a - b|
  | _, _ => none

/-- `Rationalizer._get_regularization_loss` for one batch row with the
mask given (`rationalizer.py` lines 236-260): `mask_z = z * m`,
`seq_lens = sum(m)`; the masked selection is compared with its left
shift (last position compared with itself), both ratios divided by
`seq_lens`, and the losses are absolute deviations from the recommended
ratios `rationale_num * 2 / seq_lens` and `rationale_len / seq_lens`.
Returns (loss_continuity, loss_sparsity); `none` models the non-finite
value a zero `seq_lens` produces in the source. -/
def getRegularizationLoss (rationale_num rationale_len : ℚ) (z m : List ℚ) :
    Option ℚ × Option ℚ :=
  let mask_z := List.zipWith (fun a b => a * b) z m
  let seq_lens := m.sum
  let mask_z_shift_left := mask_z.drop 1 ++ mask_z.drop (mask_z.length - 1)
  let ratio_continuity :=
    qdiv ((List.zipWith (fun a b => |a - b|) mask_z mask_z_shift_left).sum) seq_lens
  let loss_continuity := qabsSub ratio_continuity (qdiv (rationale_num * 2) seq_lens)
  let ratio_sparsity := qdiv mask_z.sum seq_lens
  let loss_sparsity := qabsSub ratio_sparsity (qdiv rationale_len seq_lens)
  (loss_continuity, loss_sparsity)

/-- The configuration fields of `args` consumed by
`Rationalizer.__init__` (`rationalizer.py` lines 22-83). -/
structure Args where
  rationale_binary : Bool
  rationale_tagger : Bool
  anti_predictor : Bool
  fine_tuning : Bool
  lambda_anti : ℚ
  lambda_s : ℚ
  threshold_s : ℚ
  lambda_d : ℚ
  lambda_sparsity : ℚ
  lambda_continuity : ℚ
  rationale_len : ℚ
  rationale_num : ℚ
  importance_score : Bool
  domain_knowledge : Bool
  rationale_regulation : Bool
  lr : ℚ

/-- Which component of the model owns a trainable parameter: the
embedding table is owned by the `Rationalizer` module itself
(`self.embed_layer`), while the tagger, classifier and anti-classifier
are submodules each owning their own weights. -/
inductive PTag where
  | embed
  | tagger
  | classifier
  | anti
  deriving DecidableEq

/-- One `torch.optim.Adam` instance: its learning rate and the set of
parameters (by owning component) handed to it at construction. -/
structure Opt where
  lr : ℚ
  params : List PTag
  deriving DecidableEq

/-- The attributes of a constructed `Rationalizer` that the claims
depend on.  `none` for an optimizer or for the reward history means the
corresponding attribute was never assigned by `__init__`, so reading it
raises `AttributeError`; likewise `hasClassifier = false` means
`self.classifier` does not exist. -/
structure RModel where
  rationale_binary : Bool
  rationale_tagger : Bool
  hasTagger : Bool
  hasClassifier : Bool
  hasAnti : Bool
  optTagger : Option Opt
  optClassifier : Option Opt
  optAnti : Option Opt
  history_rewards : Option (List ℚ)
  lambda_anti : ℚ
  lambda_s : ℚ
  threshold_s : ℚ
  lambda_d : ℚ
  lambda_sparsity : ℚ
  lambda_continuity : ℚ
  rationale_len : ℚ
  rationale_num : ℚ

/-- `p_grad(module)` of the source (`rationalizer.py` line 28): the
trainable parameters of a module.  The tagger, classifier and
anti-classifier contribute their own tag; the whole `Rationalizer`
(`p_grad(self)`, used only in the soft branch at line 49, before
`self.anti_classifier` is assigned at line 53) contributes its
submodules created so far, plus the embedding table only when
`embed_layer.weight.requires_grad` was set (i.e. `fine_tuning`,
`rationalizer.py` line 97). -/
def pGradSelfSoft (a : Args) : List PTag :=
  (if a.fine_tuning then [PTag.embed] else []) ++ [PTag.tagger, PTag.classifier]

/-- `Rationalizer.__init__` (`rationalizer.py` lines 22-83): the tagger
and classifier (and their optimizers, the reward history) exist only
when `rationale_tagger`; in the hard branch the tagger optimizer gets
`lr * 0.1` over `p_grad(self.tagger)` and the classifier optimizer `lr`
over `p_grad(self.classifier)`; in the soft branch a single optimizer
gets `lr` over `p_grad(self)`.  The anti-classifier and its optimizer
exist iff `anti_predictor`; each disabled feature forces its λ to 0. -/
def initRationalizer (a : Args) : RModel where
  rationale_binary := a.rationale_binary
  rationale_tagger := a.rationale_tagger
  hasTagger := a.rationale_tagger
  hasClassifier := a.rationale_tagger
  hasAnti := a.anti_predictor
  optTagger :=
    if a.rationale_tagger && a.rationale_binary then
      some ⟨a.lr * (1 / 10), [PTag.tagger]⟩
    else none
  optClassifier :=
    if a.rationale_tagger then
      (if a.rationale_binary then some ⟨a.lr, [PTag.classifier]⟩
       else some ⟨a.lr, pGradSelfSoft a⟩)
    else none
  optAnti := if a.anti_predictor then some ⟨a.lr, [PTag.anti]⟩ else none
  history_rewards :=
    if a.rationale_tagger && a.rationale_binary then some [(0 : ℚ)] else none
  lambda_anti := if a.anti_predictor then a.lambda_anti else 0
  lambda_s := if a.importance_score then a.lambda_s else 0
  threshold_s := if a.importance_score then a.threshold_s else 0
  lambda_d := if a.domain_knowledge then a.lambda_d else 0
  lambda_sparsity := if a.rationale_regulation then a.lambda_sparsity else 0
  lambda_continuity := if a.rationale_regulation then a.lambda_continuity else 0
  rationale_len := if a.rationale_regulation then a.rationale_len else 0
  rationale_num := if a.rationale_regulation then a.rationale_num else 0

/-- Outcome of `Rationalizer.forward`: either the selection `z` it
passes to the classifier, or an uncaught `AttributeError` on a missing
attribute. -/
inductive ForwardOutcome where
  | ok (z : List (List ℚ))
  | attributeError (attr : String)
  deriving DecidableEq

/-- `Rationalizer.forward` (`rationalizer.py` lines 101-142), with the
external tagger module's sampled selection supplied as `taggerZ`: when
the tagger is enabled `z` is its output (line 128), otherwise `z` is
the input mask `m` unchanged (line 130); line 141 then reads
`self.classifier`, which raises `AttributeError` when `__init__` never
created it. -/
def forwardR (model : RModel) (taggerZ m : List (List ℚ)) : ForwardOutcome :=
  let z := if model.rationale_tagger then taggerZ else m
  if model.hasClassifier then ForwardOutcome.ok z
  else ForwardOutcome.attributeError "classifier"

/-- Which loss is backpropagated by one entry of the update loop of
`train_one_step`. -/
inductive LossId where
  | classifier
  | tagger
  | anti
  deriving DecidableEq

/-- The `losses` / `opts` pairs of `train_one_step`
(`rationalizer.py` lines 375-390): classifier first, then the tagger
pair iff hard-mode tagging, then the anti-classifier pair iff
`lambda_anti` is nonzero; each pair undergoes `backward`, `step`,
`zero_grad` in list order. -/
def trainSchedule (model : RModel) : List (LossId × Option Opt) :=
  [(LossId.classifier, model.optClassifier)]
    ++ (if model.rationale_tagger && model.rationale_binary then
          [(LossId.tagger, model.optTagger)]
        else [])
    ++ (if model.lambda_anti ≠ 0 then [(LossId.anti, model.optAnti)] else [])

/-- All parameter tags updated by some optimizer of the schedule. -/
def allOptParams (model : RModel) : List PTag :=
  ((trainSchedule model).filterMap (fun p => Option.map Opt.params p.2)).flatten

/-- The effect of the optimizer loop of `train_one_step` on the
parameter store: a parameter is replaced by its post-step value iff it
belongs to some scheduled optimizer, and is untouched otherwise. -/
def applyTrainStep (model : RModel) (theta upd : PTag → ℚ) : PTag → ℚ :=
  fun t => if t ∈ allOptParams model then upd t else theta t

/-! ### Helper lemmas -/

theorem listMax_eq_none_iff {l : List ℚ} : listMax l = none ↔ l = [] := by
  cases l with
  | nil => simp [listMax]
  | cons x xs =>
    simp only [listMax]
    cases listMax xs <;> simp

theorem listMax_spec {l : List ℚ} {v : ℚ} (h : listMax l = some v) :
    v ∈ l ∧ ∀ x ∈ l, x ≤ v := by
  induction l generalizing v with
  | nil => simp [listMax] at h
  | cons x xs ih =>
    simp only [listMax] at h
    cases hxs : listMax xs with
    | none =>
      rw [hxs] at h
      obtain rfl : x = v := by simpa using h
      have : xs = [] := listMax_eq_none_iff.mp hxs
      subst this
      simp
    | some y =>
      rw [hxs] at h
      obtain rfl : max x y = v := by simpa using h
      obtain ⟨hmem, hub⟩ := ih hxs
      constructor
      · rcases max_cases x y with ⟨he, _⟩ | ⟨he, _⟩
        · rw [he]; exact List.mem_cons_self _ _
        · rw [he]; exact List.mem_cons_of_mem _ hmem
      · intro a ha
        rcases List.mem_cons.mp ha with rfl | ha
        · exact le_max_left _ _
        · exact le_trans (hub a ha) (le_max_right _ _)

theorem listMax_eq_some {l : List ℚ} {v : ℚ} (hv : v ∈ l) (hub : ∀ x ∈ l, x ≤ v) :
    listMax l = some v := by
  induction l with
  | nil => simp at hv
  | cons x xs ih =>
    simp only [listMax]
    cases hxs : listMax xs with
    | none =>
      have : xs = [] := listMax_eq_none_iff.mp hxs
      subst this
      obtain rfl : v = x := by simpa using hv
      rfl
    | some y =>
      obtain ⟨hymem, hyub⟩ := listMax_spec hxs
      have hx : x ≤ v := hub x (List.mem_cons_self _ _)
      have hy : y ≤ v := hub y (List.mem_cons_of_mem _ hymem)
      have hvxy : v ≤ max x y := by
        rcases List.mem_cons.mp hv with rfl | hvxs
        · exact le_max_left _ _
        · exact le_trans (hyub v hvxs) (le_max_right _ _)
      have hmax : max x y = v := le_antisymm (max_le hx hy) hvxy
      simp [hmax]

theorem map_sum_eq_range {α : Type} (f : α → ℚ) (l : List α) (d : α) :
    (l.map f).sum = ∑ i ∈ Finset.range l.length, f (l.getD i d) := by
  induction l with
  | nil => simp
  | cons x xs ih =>
    rw [List.map_cons, List.sum_cons, List.length_cons, Finset.sum_range_succ']
    simp only [List.getD_cons_succ, List.getD_cons_zero]
    rw [ih]
    ring

theorem zip_mul_sum (a b : List ℚ) (c : ℚ) (T : ℕ)
    (ha : a.length = T) (hb : b.length = T) :
    ((a.zip b).map (fun q => q.1 * c * q.2)).sum
      = ∑ t ∈ Finset.range T, a.getD t 0 * c * b.getD t 0 := by
  induction T generalizing a b with
  | zero =>
    rw [List.length_eq_zero] at ha hb
    subst ha; subst hb
    simp
  | succ n ih =>
    cases a with
    | nil => simp at ha
    | cons x xs =>
      cases b with
      | nil => simp at hb
      | cons y ys =>
        rw [List.zip_cons_cons, List.map_cons, List.sum_cons, Finset.sum_range_succ']
        simp only [List.getD_cons_succ, List.getD_cons_zero]
        rw [ih xs ys (by simpa using ha) (by simpa using hb)]
        ring

theorem zip_map_self {α β : Type} (l : List α) (f : α → β) :
    l.zip (l.map f) = l.map (fun x => (x, f x)) := by
  induction l with
  | nil => rfl
  | cons x xs ih => simp [ih]

theorem zipWith_mul_congr :
    ∀ (zg ref ref' : List ℚ), ref.length = ref'.length →
      (∀ i, i < zg.length → zg.getD i 0 ≠ 0 → ref.getD i 0 = ref'.getD i 0) →
      List.zipWith (fun a b => a * b) zg ref = List.zipWith (fun a b => a * b) zg ref'
  | [], _, _, _, _ => by simp
  | _ :: _, [], [], _, _ => by simp
  | a :: zs, r :: rs, r' :: rs', hlen, hagree => by
    have htail :
        List.zipWith (fun a b => a * b) zs rs = List.zipWith (fun a b => a * b) zs rs' :=
      zipWith_mul_congr zs rs rs' (by simpa using hlen)
        (fun i hi h => by simpa using hagree (i + 1) (by simpa using hi) (by simpa using h))
    have hhead : a * r = a * r' := by
      by_cases ha : a = 0
      · rw [ha, zero_mul, zero_mul]
      · have := hagree 0 (by simp) (by simpa using ha)
        simp only [List.getD_cons_zero] at this
        rw [this]
    simp [hhead, htail]
  | _ :: _, [], _ :: _, hlen, _ => by simp at hlen
  | _ :: _, _ :: _, [], hlen, _ => by simp at hlen

/-! ### Claim theorems -/

/-- C1, counterexample: the claim says the baseline of a hard-rationale
training step is the mean of the reward history after that step's
append.  With the initial history `[0]` and a single example whose
combined reward is 1, the source reads the baseline 0 (the mean of
`[0]`, `rationalizer.py` line 169) before appending (line 183), while
the mean of the history after the append is `1/2`, so the claimed
ordering is false. -/
theorem baseline_not_postappend_mean :
    (getTaggerLoss ⟨0, 0, 0, 0, 0⟩ [0]
        [⟨1, 0, 0, 0, 0, 0, [1], [1]⟩]).history_rewards_mean
      ≠ listMean ((getTaggerLoss ⟨0, 0, 0, 0, 0⟩ [0]
        [⟨1, 0, 0, 0, 0, 0, [1], [1]⟩]).history_rewards) := by
  norm_num [getTaggerLoss, listMean, dequePush, combinedReward]

/-- C1, amended: in every hard-rationale training step the baseline is
the mean of the reward history read before this step's append (so it
excludes the just-appended value); the batch-mean combined reward is
then appended to the history; and each example's advantage is its
combined reward minus that pre-append baseline. -/
theorem baseline_preappend_advantages (cfg : Config) (history : List ℚ)
    (batch : List BatchSignals) (i : ℕ) (hi : i < batch.length) :
    (getTaggerLoss cfg history batch).history_rewards_mean = listMean history
      ∧ (getTaggerLoss cfg history batch).history_rewards
          = dequePush history (listMean (batch.map (combinedReward cfg)))
      ∧ (getTaggerLoss cfg history batch).advantages.getD i 0
          = combinedReward cfg (batch.getD i default) - listMean history := by
  refine ⟨rfl, rfl, ?_⟩
  show ((batch.map (combinedReward cfg)).map
    (fun r => r - listMean history)).getD i 0 = _
  have hi' : i < ((batch.map (combinedReward cfg)).map
      (fun r => r - listMean history)).length := by simpa using hi
  rw [List.getD_eq_getElem _ _ hi', List.getElem_map, List.getElem_map,
    List.getD_eq_getElem _ _ hi]

/-- Witness for `baseline_preappend_advantages` at a concrete step. -/
theorem baseline_preappend_advantages_witness :
    0 < ([⟨1, 0, 0, 0, 0, 0, [1], [1]⟩] : List BatchSignals).length
      ∧ ((getTaggerLoss ⟨0, 0, 0, 0, 0⟩ [0]
            [⟨1, 0, 0, 0, 0, 0, [1], [1]⟩]).history_rewards_mean
          = listMean [0]
        ∧ (getTaggerLoss ⟨0, 0, 0, 0, 0⟩ [0]
            [⟨1, 0, 0, 0, 0, 0, [1], [1]⟩]).history_rewards
          = dequePush [0] (listMean (([⟨1, 0, 0, 0, 0, 0, [1], [1]⟩] :
              List BatchSignals).map (combinedReward ⟨0, 0, 0, 0, 0⟩)))
        ∧ (getTaggerLoss ⟨0, 0, 0, 0, 0⟩ [0]
            [⟨1, 0, 0, 0, 0, 0, [1], [1]⟩]).advantages.getD 0 0
          = combinedReward ⟨0, 0, 0, 0, 0⟩
              (([⟨1, 0, 0, 0, 0, 0, [1], [1]⟩] : List BatchSignals).getD 0 default)
            - listMean [0]) :=
  ⟨by simp, baseline_preappend_advantages ⟨0, 0, 0, 0, 0⟩ [0]
    [⟨1, 0, 0, 0, 0, 0, [1], [1]⟩] 0 (by simp)⟩

/-- C3: in every hard-rationale training step the tagger loss is the
unnormalized sum over all (batch × position) pairs of
`neg_log_probs × advantage × mask` — no division by batch size or
sequence length — where the advantage subtracts the baseline from the
combined reward
`reward_classifier − λ_anti·reward_anti_classifier −
λ_continuity·loss_continuity − λ_sparsity·loss_sparsity +
λ_s·reward_s + λ_d·reward_d`. -/
theorem taggerLoss_unnormalized_sum (cfg : Config) (history : List ℚ)
    (batch : List BatchSignals) (T : ℕ)
    (hT : ∀ e ∈ batch, e.neg_log_probs.length = T ∧ e.m.length = T) :
    (getTaggerLoss cfg history batch).loss_tagger
      = ∑ i ∈ Finset.range batch.length, ∑ t ∈ Finset.range T,
          (batch.getD i default).neg_log_probs.getD t 0
          * ((batch.getD i default).reward_classifier
              - cfg.lambda_anti * (batch.getD i default).reward_anti_classifier
              - cfg.lambda_continuity * (batch.getD i default).loss_continuity
              - cfg.lambda_sparsity * (batch.getD i default).loss_sparsity
              + cfg.lambda_s * (batch.getD i default).reward_s
              + cfg.lambda_d * (batch.getD i default).reward_d
              - listMean history)
          * (batch.getD i default).m.getD t 0 := by
  show ((batch.zip ((batch.map (combinedReward cfg)).map
      (fun r => r - listMean history))).map (fun p =>
        ((p.1.neg_log_probs.zip p.1.m).map (fun q => q.1 * p.2 * q.2)).sum)).sum = _
  rw [List.map_map, zip_map_self, List.map_map]
  rw [map_sum_eq_range _ batch default]
  refine Finset.sum_congr rfl (fun i hi => ?_)
  rw [Finset.mem_range] at hi
  have hmem : batch.getD i default ∈ batch := by
    rw [List.getD_eq_getElem _ _ hi]
    exact List.getElem_mem hi
  obtain ⟨hn, hm⟩ := hT _ hmem
  simp only [Function.comp]
  rw [zip_mul_sum _ _ _ T hn hm]
  refine Finset.sum_congr rfl (fun t _ => ?_)
  simp only [combinedReward]
  ring

/-- Witness for `taggerLoss_unnormalized_sum` at a concrete batch. -/
theorem taggerLoss_unnormalized_sum_witness :
    (∀ e ∈ ([⟨1, 0, 0, 0, 0, 0, [1, 2], [1, 0]⟩] : List BatchSignals),
        e.neg_log_probs.length = 2 ∧ e.m.length = 2)
      ∧ (getTaggerLoss ⟨1, 1, 1, 1, 1⟩ [0]
          [⟨1, 0, 0, 0, 0, 0, [1, 2], [1, 0]⟩]).loss_tagger
        = ∑ i ∈ Finset.range
            ([⟨1, 0, 0, 0, 0, 0, [1, 2], [1, 0]⟩] : List BatchSignals).length,
            ∑ t ∈ Finset.range 2,
            (([⟨1, 0, 0, 0, 0, 0, [1, 2], [1, 0]⟩] :
                List BatchSignals).getD i default).neg_log_probs.getD t 0
            * ((([⟨1, 0, 0, 0, 0, 0, [1, 2], [1, 0]⟩] :
                  List BatchSignals).getD i default).reward_classifier
                - 1 * (([⟨1, 0, 0, 0, 0, 0, [1, 2], [1, 0]⟩] :
                  List BatchSignals).getD i default).reward_anti_classifier
                - 1 * (([⟨1, 0, 0, 0, 0, 0, [1, 2], [1, 0]⟩] :
                  List BatchSignals).getD i default).loss_continuity
                - 1 * (([⟨1, 0, 0, 0, 0, 0, [1, 2], [1, 0]⟩] :
                  List BatchSignals).getD i default).loss_sparsity
                + 1 * (([⟨1, 0, 0, 0, 0, 0, [1, 2], [1, 0]⟩] :
                  List BatchSignals).getD i default).reward_s
                + 1 * (([⟨1, 0, 0, 0, 0, 0, [1, 2], [1, 0]⟩] :
                  List BatchSignals).getD i default).reward_d
                - listMean [0])
            * (([⟨1, 0, 0, 0, 0, 0, [1, 2], [1, 0]⟩] :
                List BatchSignals).getD i default).m.getD t 0 :=
  ⟨by simp, taggerLoss_unnormalized_sum ⟨1, 1, 1, 1, 1⟩ [0]
    [⟨1, 0, 0, 0, 0, 0, [1, 2], [1, 0]⟩] 2 (by simp)⟩

/-- C2, counterexample: the claim says hard-mode pooling equals the
maximum strictly over the positions with `m·z = 1` for arbitrary
hidden-state magnitudes.  With an excluded position holding the
adversarial hidden value `2·10^6` and the only included position
holding `0`, the additive `−10^6` bias leaves the excluded position at
`10^6`, which wins the max, so the pooled value is `10^6` while the
maximum over included positions is `0`. -/
theorem maxPool_adversarial_counterexample :
    maxPoolHidden [((2000000 : ℚ), 1, 0), (0, 1, 1)]
      ≠ listMax (selectedHidden [((2000000 : ℚ), 1, 0), (0, 1, 1)]) := by
  norm_num [maxPoolHidden, selectedHidden, listMax, hiddenBias, NEG_INF,
    List.filterMap_cons]

/-- C2, amended: in hard mode, for hidden values of magnitude at most
`5·10^5` (so that the `−10^6` bias dominates), whenever at least one
position has `m·z = 1` the pooled value equals the maximum of the
hidden values strictly over the positions with `m·z = 1`; positions
with `m·z = 0` never determine it, i.e. the pooled value is the same
as if excluded positions were absent. -/
theorem maxPool_eq_selected_max (pts : List (ℚ × ℚ × ℚ))
    (hB : ∀ p ∈ pts, |p.1| ≤ 500000)
    (hmz : ∀ p ∈ pts, p.2.1 * p.2.2 = 0 ∨ p.2.1 * p.2.2 = 1)
    (hne : selectedHidden pts ≠ []) :
    maxPoolHidden pts = listMax (selectedHidden pts) := by
  obtain ⟨v, hv⟩ : ∃ v, listMax (selectedHidden pts) = some v := by
    cases h : listMax (selectedHidden pts) with
    | none => exact absurd (listMax_eq_none_iff.mp h) hne
    | some v => exact ⟨v, rfl⟩
  rw [hv]
  obtain ⟨hvmem, hvub⟩ := listMax_spec hv
  obtain ⟨p, hp, hpv⟩ := List.mem_filterMap.mp hvmem
  have hp1 : p.2.1 * p.2.2 = 1 := by
    by_cases h1 : p.2.1 * p.2.2 = 1
    · exact h1
    · simp [h1] at hpv
  have hpval : p.1 = v := by simpa [hp1] using hpv
  apply listMax_eq_some
  · exact List.mem_map.mpr ⟨p, hp, by simp [hiddenBias, hp1, hpval]⟩
  · intro x hx
    obtain ⟨q, hq, rfl⟩ := List.mem_map.mp hx
    rcases hmz q hq with h0 | h1
    · have hq1 := (abs_le.mp (hB q hq)).2
      have hv1 := (abs_le.mp (hB p hp)).1
      rw [hiddenBias, h0, NEG_INF]
      rw [← hpval]
      linarith
    · have hmem : q.1 ∈ selectedHidden pts :=
        List.mem_filterMap.mpr ⟨q, hq, by simp [h1]⟩
      have := hvub _ hmem
      rw [hiddenBias, h1]
      linarith

/-- Witness for `maxPool_eq_selected_max` at a concrete input. -/
theorem maxPool_eq_selected_max_witness :
    (∀ p ∈ ([((3 : ℚ), 1, 1), (7, 0, 1)] : List (ℚ × ℚ × ℚ)), |p.1| ≤ 500000)
      ∧ (∀ p ∈ ([((3 : ℚ), 1, 1), (7, 0, 1)] : List (ℚ × ℚ × ℚ)),
          p.2.1 * p.2.2 = 0 ∨ p.2.1 * p.2.2 = 1)
      ∧ selectedHidden [((3 : ℚ), 1, 1), (7, 0, 1)] ≠ []
      ∧ maxPoolHidden [((3 : ℚ), 1, 1), (7, 0, 1)]
          = listMax (selectedHidden [((3 : ℚ), 1, 1), (7, 0, 1)]) :=
  ⟨by norm_num, by norm_num,
    by norm_num [selectedHidden, List.filterMap_cons],
    maxPool_eq_selected_max _ (by norm_num) (by norm_num)
      (by norm_num [selectedHidden, List.filterMap_cons])⟩

/-- C4: the regularization losses are not guarded against a zero mask
sum.  With the configured targets (`rationale_num = 4`,
`rationale_len = 8`) and a batch row whose mask sums to zero, the
source divides by `seq_lens = 0` (`rationalizer.py` lines 249-257) and
both losses come out non-finite (modelled `none`): nothing clamps the
length to 1 or rejects the row. -/
theorem regularization_divzero_unguarded :
    getRegularizationLoss 4 8 [1, 1] [0, 0] = (none, none) := by
  norm_num [getRegularizationLoss, qdiv, qabsSub]

/-- The configuration with the rationale tagger disabled (all other
toggles at their defaults). -/
def argsNoTagger : Args :=
  ⟨true, false, false, false, 1, 1, 0, 1, 1, 1, 8, 4, false, false, true, 1 / 1000⟩

/-- C5: with the tagger disabled, `__init__` never assigns
`self.classifier` (it is created only inside the
`if self.rationale_tagger:` branch, `rationalizer.py` lines 40-42), so
although `forward` line 130 would pass `z = m` through, line 141 raises
`AttributeError` instead of returning classifier predictions. -/
theorem forward_tagger_disabled_crashes :
    (initRationalizer argsNoTagger).hasClassifier = false
      ∧ forwardR (initRationalizer argsNoTagger) [[0, 1]] [[1, 1]]
          = ForwardOutcome.attributeError "classifier" :=
  ⟨rfl, rfl⟩

/-- C6, counterexample: the claim says padding-position values of the
domain-knowledge matrix never contribute to any reward.  Take the mask
row `m = [1, 0]` (position 1 is padding) and the selection
`z = [1, 1]`: the domain-knowledge rows `[0, 1]` and `[0, 0]` agree at
the only non-padding position (position 0, first conjunct) and differ
only at the padding position, yet the domain-knowledge rewards differ
(`1/2` vs `0`), because `_get_guidance_reward` applies no mask
(`rationalizer.py` line 218). -/
theorem guidanceReward_padding_counterexample :
    ([(0 : ℚ), 1] : List ℚ).getD 0 0 = ([(0 : ℚ), 0] : List ℚ).getD 0 0
      ∧ rewardD [1, 1] [0, 1] ≠ rewardD [1, 1] [0, 0] := by
  refine ⟨rfl, ?_⟩
  norm_num [rewardD, guidanceReward]

/-- C6, amended: the regularization losses depend on the selection only
through `z·m`, so varying `z` at mask-0 positions leaves them
unchanged; and a guidance reward is unchanged under variation of its
reference matrix (binarized score or domain knowledge) at any position
where the selection is zero — but the guidance rewards apply no
sequence mask, so a nonzero selection entry at a padding position does
let the reference there contribute. -/
theorem masked_positions_invariance (rn rl : ℚ) (z z' m zg ref ref' : List ℚ)
    (hzz : List.zipWith (fun a b => a * b) z m
        = List.zipWith (fun a b => a * b) z' m)
    (hlen : ref.length = ref'.length)
    (hagree : ∀ i, i < zg.length → zg.getD i 0 ≠ 0 →
        ref.getD i 0 = ref'.getD i 0) :
    getRegularizationLoss rn rl z m = getRegularizationLoss rn rl z' m
      ∧ guidanceReward zg ref = guidanceReward zg ref' := by
  constructor
  · simp only [getRegularizationLoss]
    rw [hzz]
  · simp only [guidanceReward]
    rw [zipWith_mul_congr zg ref ref' hlen hagree]

/-- Witness for `masked_positions_invariance` at a concrete input. -/
theorem masked_positions_invariance_witness :
    List.zipWith (fun a b => a * b) [(1 : ℚ), 9] [1, 0]
        = List.zipWith (fun a b => a * b) [(1 : ℚ), 5] [1, 0]
      ∧ ([(2 : ℚ), 3] : List ℚ).length = ([(2 : ℚ), 7] : List ℚ).length
      ∧ (∀ i, i < ([(1 : ℚ), 0] : List ℚ).length →
          ([(1 : ℚ), 0] : List ℚ).getD i 0 ≠ 0 →
          ([(2 : ℚ), 3] : List ℚ).getD i 0 = ([(2 : ℚ), 7] : List ℚ).getD i 0)
      ∧ (getRegularizationLoss 4 8 [1, 9] [1, 0]
            = getRegularizationLoss 4 8 [1, 5] [1, 0]
        ∧ guidanceReward [1, 0] [2, 3] = guidanceReward [1, 0] [2, 7]) := by
  have hzz : List.zipWith (fun a b => a * b) [(1 : ℚ), 9] [1, 0]
      = List.zipWith (fun a b => a * b) [(1 : ℚ), 5] [1, 0] := by norm_num
  have hlen : ([(2 : ℚ), 3] : List ℚ).length = ([(2 : ℚ), 7] : List ℚ).length := rfl
  have hagree : ∀ i, i < ([(1 : ℚ), 0] : List ℚ).length →
      ([(1 : ℚ), 0] : List ℚ).getD i 0 ≠ 0 →
      ([(2 : ℚ), 3] : List ℚ).getD i 0 = ([(2 : ℚ), 7] : List ℚ).getD i 0 := by
    intro i hi hz
    match i with
    | 0 => rfl
    | 1 => exact absurd rfl hz
    | n + 2 => simp at hi
  exact ⟨hzz, hlen, hagree,
    masked_positions_invariance 4 8 [1, 9] [1, 5] [1, 0] [1, 0] [2, 3] [2, 7]
      hzz hlen hagree⟩

theorem dequePush_length (q : List ℚ) (x : ℚ) :
    (dequePush q x).length = min (q.length + 1) 200 := by
  simp only [dequePush]
  split
  · rename_i h
    simp only [List.length_drop, List.length_append, List.length_singleton] at *
    omega
  · rename_i h
    simp only [List.length_append, List.length_singleton] at *
    omega

/-- C7: the reward history is a FIFO queue of capacity 200 holding a
single zero entry at construction; each hard-rationale training step
appends exactly one batch-mean combined reward, so after `n` steps its
length is `min (n+1) 200`, it is never empty, and an append at
capacity evicts the oldest (leftmost) entry. -/
theorem reward_history_fifo (n : ℕ) (r : ℕ → ℚ) (cfg : Config)
    (history : List ℚ) (batch : List BatchSignals) (q : List ℚ) (x : ℚ)
    (hq : q.length = 200) :
    (historyAfter n r).length = min (n + 1) 200
      ∧ historyAfter n r ≠ []
      ∧ (getTaggerLoss cfg history batch).history_rewards
          = dequePush history (listMean (batch.map (combinedReward cfg)))
      ∧ dequePush q x = q.drop 1 ++ [x] := by
  have hlen : (historyAfter n r).length = min (n + 1) 200 := by
    induction n with
    | zero => simp [historyAfter]
    | succ k ih =>
      rw [historyAfter, dequePush_length, ih]
      omega
  refine ⟨hlen, ?_, rfl, ?_⟩
  · refine List.ne_nil_of_length_pos ?_
    rw [hlen]
    omega
  · simp only [dequePush]
    rw [if_pos (by simp [hq])]
    have h1 : (q ++ [x]).length - 200 = 1 := by simp [hq]
    rw [h1, List.drop_append_of_le_length (by omega)]

/-- Witness for `reward_history_fifo` at concrete inputs (a full queue
of 200 zeros for the eviction clause). -/
theorem reward_history_fifo_witness :
    (List.replicate 200 (0 : ℚ)).length = 200
      ∧ ((historyAfter 3 (fun _ => (1 : ℚ))).length = min (3 + 1) 200
        ∧ historyAfter 3 (fun _ => (1 : ℚ)) ≠ []
        ∧ (getTaggerLoss ⟨0, 0, 0, 0, 0⟩ [0]
            [⟨1, 0, 0, 0, 0, 0, [1], [1]⟩]).history_rewards
          = dequePush [0] (listMean (([⟨1, 0, 0, 0, 0, 0, [1], [1]⟩] :
              List BatchSignals).map (combinedReward ⟨0, 0, 0, 0, 0⟩)))
        ∧ dequePush (List.replicate 200 (0 : ℚ)) 5
          = (List.replicate 200 (0 : ℚ)).drop 1 ++ [5]) :=
  ⟨by rw [List.length_replicate], reward_history_fifo 3 (fun _ => (1 : ℚ))
    ⟨0, 0, 0, 0, 0⟩ [0] [⟨1, 0, 0, 0, 0, 0, [1], [1]⟩]
    (List.replicate 200 (0 : ℚ)) 5 (by rw [List.length_replicate])⟩

/-- C8: the hard-mode domain-knowledge reward discards the sign of the
domain-knowledge row (`d = torch.abs(d)`, `rationalizer.py` line 341),
so it is identical for `d` and `−d`, and it equals the per-example
mean over sequence positions of `z·|d|`. -/
theorem rewardD_sign_invariant (z d : List ℚ) :
    rewardD z d = rewardD z (d.map (fun v => -v))
      ∧ rewardD z d = (List.zipWith (fun a b => a * |b|) z d).sum / z.length := by
  constructor
  · have habs : (d.map (fun v => -v)).map (fun v => |v|) = d.map (fun v => |v|) := by
      rw [List.map_map]
      simp [Function.comp, abs_neg]
    rw [rewardD, rewardD, habs]
  · simp only [rewardD, guidanceReward]
    rw [List.zipWith_map_right]

/-- The hard-mode configuration with the anti-classifier enabled. -/
def argsHard : Args :=
  ⟨true, true, true, false, 1, 1, 0, 1, 1, 1, 8, 4, false, false, true, 1 / 1000⟩

/-- C9: in every configuration that can run a training step (the
tagger enabled; a tagger-disabled model cannot even finish `forward`),
`train_one_step` pairs the active losses with their optimizers in the
fixed order classifier, tagger (hard mode only), anti-classifier
(when enabled with nonzero weight); every scheduled optimizer owns a
parameter subset disjoint from each of the others'; and whenever the
tagger optimizer exists its learning rate is exactly `0.1` times the
classifier optimizer's (`rationalizer.py` lines 43-55, 375-390). -/
theorem optimizers_schedule (a : Args) (ht : a.rationale_tagger = true) :
    trainSchedule (initRationalizer a)
        = [(LossId.classifier,
            some (if a.rationale_binary then ⟨a.lr, [PTag.classifier]⟩
                  else ⟨a.lr, pGradSelfSoft a⟩))]
          ++ (if a.rationale_binary then
                [(LossId.tagger, some ⟨a.lr * (1 / 10), [PTag.tagger]⟩)]
              else [])
          ++ (if a.anti_predictor = true ∧ a.lambda_anti ≠ 0 then
                [(LossId.anti, some ⟨a.lr, [PTag.anti]⟩)]
              else [])
      ∧ List.Pairwise (fun s t => ∀ x ∈ s, x ∉ t)
          ((trainSchedule (initRationalizer a)).filterMap
            (fun p => Option.map Opt.params p.2))
      ∧ Option.map Opt.lr (initRationalizer a).optTagger
          = (if a.rationale_binary then
              Option.map (fun o => o.lr * (1 / 10)) (initRationalizer a).optClassifier
             else none) := by
  refine ⟨?_, ?_, ?_⟩
  · by_cases hb : a.rationale_binary <;>
      by_cases hap : a.anti_predictor <;>
      by_cases hl : a.lambda_anti = 0 <;>
      simp [trainSchedule, initRationalizer, ht, hb, hap, hl]
  · by_cases hb : a.rationale_binary <;>
      by_cases hap : a.anti_predictor <;>
      by_cases hl : a.lambda_anti = 0 <;>
      by_cases hft : a.fine_tuning <;>
      simp [trainSchedule, initRationalizer, pGradSelfSoft, ht, hb, hap, hl, hft,
        List.filterMap_cons]
  · by_cases hb : a.rationale_binary <;> simp [initRationalizer, ht, hb]

/-- Witness for `optimizers_schedule` at the concrete hard
configuration with the anti-classifier enabled. -/
theorem optimizers_schedule_witness :
    argsHard.rationale_tagger = true
      ∧ (trainSchedule (initRationalizer argsHard)
          = [(LossId.classifier,
              some (if argsHard.rationale_binary then ⟨argsHard.lr, [PTag.classifier]⟩
                    else ⟨argsHard.lr, pGradSelfSoft argsHard⟩))]
            ++ (if argsHard.rationale_binary then
                  [(LossId.tagger, some ⟨argsHard.lr * (1 / 10), [PTag.tagger]⟩)]
                else [])
            ++ (if argsHard.anti_predictor = true ∧ argsHard.lambda_anti ≠ 0 then
                  [(LossId.anti, some ⟨argsHard.lr, [PTag.anti]⟩)]
                else [])
        ∧ List.Pairwise (fun s t => ∀ x ∈ s, x ∉ t)
            ((trainSchedule (initRationalizer argsHard)).filterMap
              (fun p => Option.map Opt.params p.2))
        ∧ Option.map Opt.lr (initRationalizer argsHard).optTagger
            = (if argsHard.rationale_binary then
                Option.map (fun o => o.lr * (1 / 10))
                  (initRationalizer argsHard).optClassifier
               else none)) :=
  ⟨rfl, optimizers_schedule argsHard rfl⟩

/-- C10: in hard-rationale mode the embedding table belongs to no
optimizer of `train_one_step` — the three optimizers are built from
`p_grad(self.tagger)`, `p_grad(self.classifier)` and
`p_grad(self.anti_classifier)` only (`rationalizer.py` lines 44-55),
none of which owns `self.embed_layer` — so a training step leaves the
embedding weights unchanged for every `fine_tuning` setting. -/
theorem embeddings_not_updated (a : Args) (ht : a.rationale_tagger = true)
    (hb : a.rationale_binary = true) (theta upd : PTag → ℚ) :
    PTag.embed ∉ allOptParams (initRationalizer a)
      ∧ applyTrainStep (initRationalizer a) theta upd PTag.embed
          = theta PTag.embed := by
  have hmem : PTag.embed ∉ allOptParams (initRationalizer a) := by
    simp only [allOptParams, trainSchedule, initRationalizer, ht, hb]
    by_cases hap : a.anti_predictor <;> by_cases hl : a.lambda_anti = 0 <;>
      simp [hap, hl, List.filterMap_cons]
  exact ⟨hmem, by simp [applyTrainStep, hmem]⟩

/-- Witness for `embeddings_not_updated` with fine-tuning enabled. -/
theorem embeddings_not_updated_witness :
    (⟨true, true, true, true, 1, 1, 0, 1, 1, 1, 8, 4, false, false, true,
        1 / 1000⟩ : Args).rationale_tagger = true
      ∧ (⟨true, true, true, true, 1, 1, 0, 1, 1, 1, 8, 4, false, false, true,
          1 / 1000⟩ : Args).rationale_binary = true
      ∧ (PTag.embed ∉ allOptParams (initRationalizer
            ⟨true, true, true, true, 1, 1, 0, 1, 1, 1, 8, 4, false, false, true,
              1 / 1000⟩)
        ∧ applyTrainStep (initRationalizer
              ⟨true, true, true, true, 1, 1, 0, 1, 1, 1, 8, 4, false, false, true,
                1 / 1000⟩)
            (fun _ => 0) (fun _ => 1) PTag.embed
          = (fun _ => (0 : ℚ)) PTag.embed) :=
  ⟨rfl, rfl, embeddings_not_updated
    ⟨true, true, true, true, 1, 1, 0, 1, 1, 1, 8, 4, false, false, true, 1 / 1000⟩
    rfl rfl (fun _ => 0) (fun _ => 1)⟩

end Rationalize

